import Mathlib

/-!
Verification of the Paracord federation validation harness
(`scripts/federation_e2e_validation.py`,
`scripts/federation_live_fundamentals_validation.py`,
`scripts/security_gate_check.py`) against its natural-language
specification.  The Python code is shallowly embedded: times are natural
numbers in tenths of a second (so the literal factor `0.9` becomes the
exact comparison `9 * interval ≤ 10 * elapsed`), JSON values are the
inductive `JVal`, and the gateway/poller loops become structurally
recursive functions over the list of frames that arrive within the
relevant timeout window.
-/

set_option autoImplicit false

namespace Paracord

/-! ## JSON values and gateway messages -/

/-- A JSON value, as produced by `json.loads` in the scripts.  Only the
distinction used by the code matters: `jobj` is a Python `dict`, everything
else fails the `isinstance(data, dict)` checks. -/
inductive JVal where
  | jnull : JVal
  | jbool : Bool → JVal
  | jnum : Int → JVal
  | jstr : String → JVal
  | jarr : List JVal → JVal
  | jobj : List (String × JVal) → JVal

/-- `isinstance(v, dict)` on a decoded JSON value. -/
def JVal.isDict : JVal → Bool
  | .jobj _ => true
  | _ => false

/-- One decoded gateway frame (a JSON dict).  `mid` is a ghost identity used
to speak about "the same event object"; the scripts never read it.  `op` is
`msg.get("op")`, `t` is `msg.get("t")` (`none` when the key is absent or not
a string), `d` is `msg.get("d")`. -/
structure Msg where
  mid : Nat
  op : Nat
  t : Option String
  d : JVal

/-- `predicate is None or predicate(data)` from `_find_in_backlog` /
`wait_dispatch`. -/
def predOk (pred : Option (JVal → Bool)) (d : JVal) : Bool :=
  match pred with
  | none => true
  | some p => p d

/-- The condition under which a frame is claimed by an `await` for
`etype`/`pred`: `op == 0`, `t == etype`, the payload is a dict and the
predicate accepts it (`_find_in_backlog` lines 511-517, and the return test
of `wait_dispatch` lines 535-543). -/
def matchesEvent (etype : String) (pred : Option (JVal → Bool)) (m : Msg) : Bool :=
  m.op == 0 && m.t == some etype && m.d.isDict && predOk pred m.d

/-- The test `msg.get("op") == 0 and isinstance(msg.get("t"), str)` of
the receive loop of `wait_dispatch`: only such frames are appended to the
backlog; all others are dropped. -/
def eligible (m : Msg) : Bool :=
  m.op == 0 && m.t.isSome

/-- `GatewayClient._find_in_backlog`: scan the backlog oldest-first and pop
the first frame matching the request.  Returns the popped frame and the
remaining backlog. -/
def findInBacklog (etype : String) (pred : Option (JVal → Bool)) :
    List Msg → Option (Msg × List Msg)
  | [] => none
  | m :: rest =>
    if matchesEvent etype pred m then some (m, rest)
    else
      match findInBacklog etype pred rest with
      | some (r, rest') => some (r, m :: rest')
      | none => none

/-- The receive loop of `GatewayClient.wait_dispatch` (lines 531-544) over
the frames that arrive before the deadline: a matching frame is returned at
once, an eligible non-matching frame is appended to the backlog, and
anything else is dropped.  Returns (result, new backlog, frames not yet
consumed when the match was found). -/
def recvLoop (etype : String) (pred : Option (JVal → Bool)) :
    List Msg → List Msg → Option Msg × List Msg × List Msg
  | backlog, [] => (none, backlog, [])
  | backlog, m :: rest =>
    if eligible m then
      if matchesEvent etype pred m then (some m, backlog, rest)
      else recvLoop etype pred (backlog ++ [m]) rest
    else recvLoop etype pred backlog rest

/-- `GatewayClient.wait_dispatch`: first scan the retained backlog; only on
a miss enter the receive loop.  `st` is the backlog held by the session,
`arrivals` the frames delivered by the stream within the timeout window. -/
def wait_dispatch (st arrivals : List Msg) (etype : String)
    (pred : Option (JVal → Bool)) : Option Msg × List Msg × List Msg :=
  match findInBacklog etype pred st with
  | some (m, st') => (some m, st', arrivals)
  | none => recvLoop etype pred st arrivals

/-! ## Relay-topology verifiers -/

/-- The relay check of `federation_e2e_validation.py` lines 363-379, as a
function of the three evidence counts: `a_to_c` delivery-attempt rows on A,
`b_to_c` delivery-attempt rows on B, `c_has_event` ingestion rows on C.
The script raises `AssertionError` (check fails) unless `a_to_c == 0`,
`b_to_c > 0` and `c_has_event > 0`. -/
def relayCheckE2E (aToC bToC cHasEvent : Nat) : Bool :=
  if aToC ≠ 0 then false
  else if bToC ≤ 0 ∨ cHasEvent ≤ 0 then false
  else true

/-- The relay check of `federation_live_fundamentals_validation.py` lines
798-814: the script fails only when `c_has_event <= 0`, or when both
`a_to_c <= 0` and `b_to_c <= 0`. -/
def relayCheckLive (aToC bToC cHasEvent : Nat) : Bool :=
  if cHasEvent ≤ 0 then false
  else if aToC ≤ 0 ∧ bToC ≤ 0 then false
  else true

/-! ## Final trusted-peer verification -/

/-- One row of the `federated_servers` table as read by the final
assertions. -/
structure PeerRow where
  serverName : String
  trusted : Bool

/-- The `WHERE trusted = TRUE` projection onto `server_name` shared by both
final queries. -/
def trustedNames (rows : List PeerRow) : List String :=
  (rows.filter (fun r => r.trusted)).map (fun r => r.serverName)

/-- Lexicographic comparison of character lists, the order behind
`ORDER BY server_name`. -/
def charListLe : List Char → List Char → Bool
  | [], _ => true
  | _ :: _, [] => false
  | a :: as, b :: bs => if a = b then charListLe as bs else decide (a < b)

/-- Insertion step of the `ORDER BY server_name` sort. -/
def insertByName (x : String) : List String → List String
  | [] => [x]
  | y :: ys => if charListLe x.toList y.toList then x :: y :: ys else y :: insertByName x ys

/-- The `ORDER BY server_name` sort used by the final query of the e2e script. -/
def sortByName (l : List String) : List String :=
  l.foldr insertByName []

/-- `NODES["b"].server_name`. -/
def nodeBName : String := "node-b.test"

/-- Final trust assertion of `federation_e2e_validation.py` lines 525-531:
the sorted trusted-peer names of node A must equal exactly
`[NODES["b"].server_name]`. -/
def e2eFinalTrustCheck (rows : List PeerRow) : Bool :=
  sortByName (trustedNames rows) == [nodeBName]

/-- Final trust assertion of `federation_live_fundamentals_validation.py`
lines 1314-1320: the server name of node B must merely appear among the
trusted peers of node A. -/
def liveFinalTrustCheck (rows : List PeerRow) : Bool :=
  (trustedNames rows).contains nodeBName

/-- A trusted-peer table where node A trusts both B and C. -/
def superTrustRows : List PeerRow :=
  [{ serverName := "node-b.test", trusted := true },
   { serverName := "node-c.test", trusted := true }]

/-! ## Security gate check -/

/-- Split a line on `'|'`, mirroring the segment structure the regex
`ROW_RE` of `security_gate_check.py` walks through. -/
def splitPipe : List Char → List (List Char)
  | [] => [[]]
  | c :: cs =>
    let r := splitPipe cs
    if c = '|' then [] :: r
    else
      match r with
      | seg :: rest => (c :: seg) :: rest
      | [] => [[c]]

/-- The segment ` P0-\d\x7b2\x7d ` of `ROW_RE`. -/
def p0Seg : List Char → Bool
  | [' ', 'P', '0', '-', d1, d2, ' '] => d1.isDigit && d2.isDigit
  | _ => false

/-- The segment ` [^|]+ ` of `ROW_RE`: a space, at least one non-pipe
character, a space (segments produced by `splitPipe` contain no pipe). -/
def fieldSeg : List Char → Bool
  | ' ' :: rest => decide (2 ≤ rest.length) && rest.getLast? == some ' '
  | _ => false

/-- The segment ` (OPEN|IN_PROGRESS|BLOCKED) ` of `ROW_RE`. -/
def statusSeg (s : List Char) : Bool :=
  s == " OPEN ".toList || s == " IN_PROGRESS ".toList || s == " BLOCKED ".toList

/-- `ROW_RE.match(line)`: the line starts with `|` followed by the P0 id
segment, three free-text segments, a status segment, and a final `|`
(anything may follow, since `re.match` only anchors at the start). -/
def rowMatch (line : List Char) : Bool :=
  match splitPipe line with
  | [] :: s1 :: s2 :: s3 :: s4 :: s5 :: _ :: _ =>
    p0Seg s1 && fieldSeg s2 && fieldSeg s3 && fieldSeg s4 && statusSeg s5
  | _ => false

/-- The tracker-parsing and gating logic of `security_gate_check.main`
lines 14-31, which the early `return 0` makes unreachable: missing tracker
file returns 1, any `OPEN`/`IN_PROGRESS`/`BLOCKED` P0 row returns 1,
otherwise 0.  `none` models a missing tracker file; `some lines` its
`splitlines()`. -/
def gateBody (tracker : Option (List (List Char))) : Nat :=
  match tracker with
  | none => 1
  | some lines => if lines.any rowMatch then 1 else 0

/-- `security_gate_check.main`: the first statement is `return 0`, so the
function is constantly 0 whatever the tracker file holds. -/
def securityGateMain (_tracker : Option (List (List Char))) : Nat := 0

/-- A tracker row with an OPEN P0 task. -/
def openRow : List Char := "| P0-01 | desc | owner | notes | OPEN |".toList

/-- A tracker row whose P0 task is DONE. -/
def doneRow : List Char := "| P0-01 | desc | owner | notes | DONE |".toList

/-! ## Eventual-consistency poller (`wait_until`) -/

/-- Outcome of one `wait_until` call: either it returns, or it raises
`TimeoutError` carrying the human-readable description. -/
inductive WaitOutcome where
  | ok : WaitOutcome
  | timeoutErr : String → WaitOutcome
deriving DecidableEq

/-- The poll loop of `wait_until`: before each poll the deadline is checked;
a poll evaluates `fn` at the current time, where `some true` returns,
`some false` continues, and `none` models `fn` raising an exception, which
the `except` clause swallows and treats as "not yet true".  Times are in
tenths of a second; successive polls are `poll` apart (`time.sleep`).  The
fuel argument only realises termination: with `1 ≤ poll` the fuel
`deadline + 1` is never exhausted before the deadline check fails. -/
def waitUntilAux (desc : String) (fn : Nat → Option Bool) (deadline poll : Nat) :
    Nat → Nat → WaitOutcome
  | 0, _ => WaitOutcome.timeoutErr desc
  | fuel + 1, t =>
    if t < deadline then
      if fn t = some true then WaitOutcome.ok
      else waitUntilAux desc fn deadline poll fuel (t + poll)
    else WaitOutcome.timeoutErr desc

/-- `wait_until(desc, fn, timeout_s)` of both validation scripts, with the
first poll at time 0 (the moment of the call). -/
def wait_until (desc : String) (fn : Nat → Option Bool) (deadline poll : Nat) :
    WaitOutcome :=
  waitUntilAux desc fn deadline poll (deadline + 1) 0

/-- A predicate that is false at all times before `T` and true at and
after `T`, and never raises. -/
def thresholdAt (T : Nat) : Nat → Option Bool :=
  fun t => some (decide (T ≤ t))

/-! ## Keepalive piggybacking (`_maybe_heartbeat`) -/

/-- `GatewayClient._maybe_heartbeat`, in tenths of a second:
`now - last_heartbeat_at >= heartbeat_interval_s * 0.9` becomes
`9 * interval ≤ 10 * (now - last)`.  Returns the new `last_heartbeat_at`
and whether a keepalive frame was sent. -/
def maybe_heartbeat (interval lastBeat now : Nat) : Nat × Bool :=
  if 9 * interval ≤ 10 * (now - lastBeat) then (now, true) else (lastBeat, false)

/-- The keepalive emission times over a run of read-iteration times `ts`,
starting from last emission time `lastBeat` (each read iteration calls
`_maybe_heartbeat` first). -/
def heartbeatTrace (interval lastBeat : Nat) : List Nat → List Nat
  | [] => []
  | t :: ts =>
    if 9 * interval ≤ 10 * (t - lastBeat) then t :: heartbeatTrace interval t ts
    else heartbeatTrace interval lastBeat ts

/-! ## Gateway handshake (`GatewayClient.connect`) -/

/-- Python `dict.get` on a decoded JSON object. -/
def getField : List (String × JVal) → String → Option JVal
  | [], _ => none
  | (k, v) :: rest, key => if k = key then some v else getField rest key

/-- The well-formed domain of the interval read in `connect`: the greeting
payload either is not a dict, or its `heartbeat_interval` field is absent
or a JSON number.  Outside this domain (field present but e.g. `null`, an
array or an object) the source raises `TypeError`/`ValueError` in
`float(interval_ms)` at line 427 before sending IDENTIFY, a path this
embedding does not model: every theorem about `connectModel` that reaches
past the opcode check restricts to this domain. -/
def helloIntervalWF (m : Msg) : Prop :=
  ∀ fields, m.d = JVal.jobj fields →
    getField fields "heartbeat_interval" = none ∨
    ∃ n, getField fields "heartbeat_interval" = some (JVal.jnum n)

/-- The negotiated `heartbeat_interval` in milliseconds:
`hello.get("d", \x7b\x7d).get("heartbeat_interval", 41250) if
isinstance(hello.get("d"), dict) else 41250`.  Meaningful only on
`helloIntervalWF` frames: on a present non-numeric field the source raises
in `float(...)` instead of producing any interval, so theorems about the
stages after the opcode check carry a `helloIntervalWF` hypothesis. -/
def helloIntervalMs (m : Msg) : Int :=
  match m.d with
  | JVal.jobj fields =>
    match getField fields "heartbeat_interval" with
    | some (JVal.jnum n) => n
    | _ => 41250
  | _ => 41250

/-- Outcome of `GatewayClient.connect`: success carries the negotiated
keepalive interval in milliseconds (clamped below by 1000, mirroring
`max(1.0, interval_ms / 1000.0)` seconds) plus the session backlog and the
frames left unread; failure carries the message of the raised error. -/
inductive ConnectResult where
  | ok : Int → List Msg → List Msg → ConnectResult
  | err : String → ConnectResult

/-- `GatewayClient.connect` over the frames the server sends: block for the
greeting, require opcode 10 (HELLO), read the keepalive interval (defaulting
to 41250 ms when absent), send IDENTIFY, then wait for a READY dispatch with
the freshly created empty backlog.  An empty frame sequence models the
bounded greeting read timing out.  This function embeds `connect` only on
greetings satisfying `helloIntervalWF`: on a HELLO whose interval field is
present but non-numeric the source raises out of `connect` at the
`float(interval_ms)` call instead, reaching neither IDENTIFY nor the READY
wait, and no theorem below asserts anything about such frames. -/
def connectModel (incoming : List Msg) : ConnectResult :=
  match incoming with
  | [] => ConnectResult.err "timed out waiting for websocket payload"
  | hello :: rest =>
    if hello.op = 10 then
      match wait_dispatch [] rest "READY" none with
      | (some _, bl, rem) => ConnectResult.ok (max 1000 (helloIntervalMs hello)) bl rem
      | (none, _, _) => ConnectResult.err "timed out waiting for READY"
    else ConnectResult.err "expected HELLO"

/-! ## Session close (`GatewayClient.close`) -/

/-- The underlying websocket handle; `closeRaises` says whether its
`close()` raises. -/
structure StreamHandle where
  closeRaises : Bool

/-- `self.ws.close()`: may raise. -/
def streamClose (h : StreamHandle) : Except String Unit :=
  if h.closeRaises then Except.error "stream close failed" else Except.ok ()

/-- The per-session state `GatewayClient.close` touches. -/
structure ClientState where
  ws : Option StreamHandle
  backlog : List Msg

/-- `GatewayClient.close`: if connected, try to close the stream, swallow
any exception, and clear the handle; otherwise do nothing.  Totality of
this function is the shallow rendering of "never raises". -/
def closeClient (s : ClientState) : ClientState :=
  match s.ws with
  | none => s
  | some h =>
    match streamClose h with
    | Except.ok _ => { s with ws := none }
    | Except.error _ => { s with ws := none }

/-! ## Concrete frames used by the closed-instance theorems -/

/-- A MESSAGE_CREATE dispatch with a dict payload. -/
def msgA : Msg := { mid := 0, op := 0, t := some "MESSAGE_CREATE", d := JVal.jobj [] }

/-- A second, distinct MESSAGE_CREATE dispatch with a dict payload. -/
def msgB : Msg := { mid := 1, op := 0, t := some "MESSAGE_CREATE", d := JVal.jobj [] }

/-- A MESSAGE_CREATE dispatch whose payload is a JSON array, not a dict. -/
def ndMsg : Msg := { mid := 2, op := 0, t := some "MESSAGE_CREATE", d := JVal.jarr [] }

/-- A HELLO greeting without a `heartbeat_interval` field. -/
def helloMsg : Msg := { mid := 3, op := 10, t := none, d := JVal.jobj [] }

/-- A READY dispatch. -/
def readyMsg : Msg := { mid := 4, op := 0, t := some "READY", d := JVal.jobj [] }

/-- A first frame that is not a HELLO greeting. -/
def badHello : Msg := { mid := 5, op := 0, t := none, d := JVal.jnull }

/-! ## Helper lemmas -/

lemma insertByName_perm (x : String) (l : List String) :
    List.Perm (insertByName x l) (x :: l) := by
  induction l with
  | nil => exact List.Perm.refl _
  | cons y ys ih =>
    rw [insertByName]
    by_cases h : charListLe x.toList y.toList
    · rw [if_pos h]
    · rw [if_neg h]
      exact List.Perm.trans (List.Perm.cons y ih) (List.Perm.swap x y ys)

lemma sortByName_perm (l : List String) : List.Perm (sortByName l) l := by
  induction l with
  | nil => exact List.Perm.refl _
  | cons x xs ih =>
    have hstep : sortByName (x :: xs) = insertByName x (sortByName xs) := rfl
    rw [hstep]
    exact List.Perm.trans (insertByName_perm _ _) (List.Perm.cons x ih)

lemma matchesEvent_eligible (etype : String) (pred : Option (JVal → Bool)) (m : Msg)
    (h : matchesEvent etype pred m = true) : eligible m = true := by
  simp only [matchesEvent, Bool.and_eq_true, beq_iff_eq] at h
  obtain ⟨⟨⟨hop, ht⟩, _⟩, _⟩ := h
  simp [eligible, hop, ht]

lemma matches_false_of_not_eligible (etype : String) (pred : Option (JVal → Bool))
    (m : Msg) (he : ¬eligible m = true) : matchesEvent etype pred m = false := by
  cases hm : matchesEvent etype pred m
  · rfl
  · exact absurd (matchesEvent_eligible etype pred m hm) he

lemma nodup_split_not_mem {A B : List Nat} {x : Nat} (h : (A ++ x :: B).Nodup) :
    x ∉ A ∧ x ∉ B := by
  have h' : (x :: (A ++ B)).Nodup := List.nodup_middle.mp h
  have hx := (List.nodup_cons.mp h').1
  simp only [List.mem_append] at hx
  exact ⟨fun hA => hx (Or.inl hA), fun hB => hx (Or.inr hB)⟩

lemma matchesEvent_isDict (etype : String) (pred : Option (JVal → Bool)) (m : Msg)
    (h : matchesEvent etype pred m = true) : m.d.isDict = true := by
  simp only [matchesEvent, Bool.and_eq_true, beq_iff_eq] at h
  exact h.1.2

lemma findInBacklog_eq_some (etype : String) (pred : Option (JVal → Bool)) :
    ∀ (bl : List Msg) (m : Msg) (bl' : List Msg),
    findInBacklog etype pred bl = some (m, bl') →
    ∃ pre post, bl = pre ++ m :: post ∧ bl' = pre ++ post ∧
      (∀ x ∈ pre, matchesEvent etype pred x = false) ∧
      matchesEvent etype pred m = true := by
  intro bl
  induction bl with
  | nil => intro m bl' h; exact absurd h (by rw [findInBacklog]; simp)
  | cons a rest ih =>
    intro m bl' h
    rw [findInBacklog] at h
    by_cases ha : matchesEvent etype pred a = true
    · rw [if_pos ha] at h
      simp only [Option.some.injEq, Prod.mk.injEq] at h
      refine ⟨[], rest, by simp [h.1], by simp [h.2], by simp, h.1 ▸ ha⟩
    · rw [if_neg ha] at h
      cases hrec : findInBacklog etype pred rest with
      | none => rw [hrec] at h; cases h
      | some pr =>
        obtain ⟨r, rest'⟩ := pr
        rw [hrec] at h
        simp only [Option.some.injEq, Prod.mk.injEq] at h
        obtain ⟨pre, post, heq, heq', hpre, hm⟩ := ih r rest' hrec
        refine ⟨a :: pre, post, ?_, ?_, ?_, h.1 ▸ hm⟩
        · rw [← h.1, List.cons_append, ← heq]
        · rw [← h.2, List.cons_append, ← heq']
        · intro x hx
          rcases List.mem_cons.mp hx with hx | hx
          · rw [hx]
            exact Bool.not_eq_true _ ▸ ha
          · exact hpre x hx

lemma findInBacklog_eq_none (etype : String) (pred : Option (JVal → Bool)) :
    ∀ (bl : List Msg), findInBacklog etype pred bl = none →
      ∀ x ∈ bl, matchesEvent etype pred x = false := by
  intro bl
  induction bl with
  | nil => intro _ x hx; cases hx
  | cons a rest ih =>
    intro h x hx
    rw [findInBacklog] at h
    by_cases ha : matchesEvent etype pred a = true
    · rw [if_pos ha] at h; cases h
    · rw [if_neg ha] at h
      rcases List.mem_cons.mp hx with hx | hx
      · rw [hx]; exact Bool.not_eq_true _ ▸ ha
      · cases hrec : findInBacklog etype pred rest with
        | none => exact ih hrec x hx
        | some pr => obtain ⟨r, rest'⟩ := pr; rw [hrec] at h; cases h

lemma recvLoop_eq_some (etype : String) (pred : Option (JVal → Bool)) :
    ∀ (arr bl : List Msg) (r : Msg) (bl1 arr1 : List Msg),
    recvLoop etype pred bl arr = (some r, bl1, arr1) →
    matchesEvent etype pred r = true ∧
    ∃ pre post, arr = pre ++ r :: post ∧ arr1 = post ∧
      bl1 = bl ++ pre.filter eligible ∧
      (∀ x ∈ pre, matchesEvent etype pred x = false) := by
  intro arr
  induction arr with
  | nil =>
    intro bl r bl1 arr1 h
    rw [recvLoop] at h
    simp at h
  | cons a rest ih =>
    intro bl r bl1 arr1 h
    rw [recvLoop] at h
    by_cases he : eligible a = true
    · rw [if_pos he] at h
      by_cases hm : matchesEvent etype pred a = true
      · rw [if_pos hm] at h
        simp only [Prod.mk.injEq, Option.some.injEq] at h
        obtain ⟨h1, h2, h3⟩ := h
        refine ⟨h1 ▸ hm, [], rest, by simp [h1], h3.symm, by simp [h2], by simp⟩
      · rw [if_neg hm] at h
        obtain ⟨hr, pre, post, heq, h1, h2, hpre⟩ := ih (bl ++ [a]) r bl1 arr1 h
        refine ⟨hr, a :: pre, post, by rw [List.cons_append, ← heq], h1, ?_, ?_⟩
        · rw [h2, List.filter_cons, if_pos he]
          simp
        · intro x hx
          rcases List.mem_cons.mp hx with hx | hx
          · rw [hx]; exact Bool.not_eq_true _ ▸ hm
          · exact hpre x hx
    · rw [if_neg he] at h
      obtain ⟨hr, pre, post, heq, h1, h2, hpre⟩ := ih bl r bl1 arr1 h
      refine ⟨hr, a :: pre, post, by rw [List.cons_append, ← heq], h1, ?_, ?_⟩
      · rw [h2, List.filter_cons, if_neg he]
      · intro x hx
        rcases List.mem_cons.mp hx with hx | hx
        · rw [hx]
          exact matches_false_of_not_eligible etype pred a he
        · exact hpre x hx

lemma recvLoop_eq_none (etype : String) (pred : Option (JVal → Bool)) :
    ∀ (arr bl : List Msg) (bl1 arr1 : List Msg),
    recvLoop etype pred bl arr = (none, bl1, arr1) →
    arr1 = [] ∧ bl1 = bl ++ arr.filter eligible ∧
      ∀ x ∈ arr, matchesEvent etype pred x = false := by
  intro arr
  induction arr with
  | nil =>
    intro bl bl1 arr1 h
    rw [recvLoop] at h
    simp only [Prod.mk.injEq] at h
    exact ⟨h.2.2.symm, by simp [← h.2.1], by simp⟩
  | cons a rest ih =>
    intro bl bl1 arr1 h
    rw [recvLoop] at h
    by_cases he : eligible a = true
    · rw [if_pos he] at h
      by_cases hm : matchesEvent etype pred a = true
      · rw [if_pos hm] at h; simp at h
      · rw [if_neg hm] at h
        obtain ⟨h1, h2, hall⟩ := ih (bl ++ [a]) bl1 arr1 h
        refine ⟨h1, ?_, ?_⟩
        · rw [h2, List.filter_cons, if_pos he]
          simp
        · intro x hx
          rcases List.mem_cons.mp hx with hx | hx
          · rw [hx]; exact Bool.not_eq_true _ ▸ hm
          · exact hall x hx
    · rw [if_neg he] at h
      obtain ⟨h1, h2, hall⟩ := ih bl bl1 arr1 h
      refine ⟨h1, by rw [h2, List.filter_cons, if_neg he], ?_⟩
      intro x hx
      rcases List.mem_cons.mp hx with hx | hx
      · rw [hx]
        exact matches_false_of_not_eligible etype pred a he
      · exact hall x hx

lemma recvLoop_none_of_all_unmatched (etype : String) (pred : Option (JVal → Bool)) :
    ∀ (arr bl : List Msg), (∀ x ∈ arr, matchesEvent etype pred x = false) →
      ∃ bl1, recvLoop etype pred bl arr = (none, bl1, []) := by
  intro arr
  induction arr with
  | nil => intro bl _; exact ⟨bl, by rw [recvLoop]⟩
  | cons a rest ih =>
    intro bl hall
    have ha : matchesEvent etype pred a = false := hall a (List.mem_cons_self a rest)
    have hrest : ∀ x ∈ rest, matchesEvent etype pred x = false :=
      fun x hx => hall x (List.mem_cons_of_mem a hx)
    by_cases he : eligible a = true
    · obtain ⟨bl1, hbl1⟩ := ih (bl ++ [a]) hrest
      exact ⟨bl1, by rw [recvLoop, if_pos he, if_neg (by simp [ha])]; exact hbl1⟩
    · obtain ⟨bl1, hbl1⟩ := ih bl hrest
      exact ⟨bl1, by rw [recvLoop, if_neg he]; exact hbl1⟩

lemma wait_dispatch_some_spec (st arr : List Msg) (etype : String)
    (pred : Option (JVal → Bool)) (r : Msg) (st1 arr1 : List Msg)
    (h : wait_dispatch st arr etype pred = (some r, st1, arr1)) :
    matchesEvent etype pred r = true ∧ r ∈ st ++ arr ∧
    ∀ m', m' ∈ st ++ arr → matchesEvent etype pred m' = true → m' ≠ r →
      m' ∈ st1 ++ arr1 := by
  rw [wait_dispatch] at h
  cases hfib : findInBacklog etype pred st with
  | some pr =>
    obtain ⟨c, bl'⟩ := pr
    rw [hfib] at h
    obtain ⟨hc, hst1, harr1⟩ : c = r ∧ bl' = st1 ∧ arr = arr1 := by simpa using h
    obtain ⟨pre, post, heq, heq', hpre, hm⟩ := findInBacklog_eq_some etype pred st c bl' hfib
    rw [hc] at heq hm
    rw [hst1] at heq'
    refine ⟨hm, ?_, ?_⟩
    · rw [heq]
      exact List.mem_append_left _ (List.mem_append_right pre (List.mem_cons_self r post))
    · intro m' hm' _ hne
      rw [heq', ← harr1]
      rcases List.mem_append.mp hm' with h' | h'
      · rw [heq] at h'
        rcases List.mem_append.mp h' with h' | h'
        · exact List.mem_append_left _ (List.mem_append_left post h')
        · rcases List.mem_cons.mp h' with h' | h'
          · exact absurd h' hne
          · exact List.mem_append_left _ (List.mem_append_right pre h')
      · exact List.mem_append_right _ h'
  | none =>
    rw [hfib] at h
    obtain ⟨hr, pre, post, heq, h1, h2, hpre⟩ := recvLoop_eq_some etype pred arr st r st1 arr1 h
    refine ⟨hr, ?_, ?_⟩
    · rw [heq]
      exact List.mem_append_right _ (List.mem_append_right pre (List.mem_cons_self r post))
    · intro m' hm' hmatch hne
      rw [h2, h1]
      rcases List.mem_append.mp hm' with h' | h'
      · exact List.mem_append_left _ (List.mem_append_left _ h')
      · rw [heq] at h'
        rcases List.mem_append.mp h' with h' | h'
        · exact absurd hmatch (by simp [hpre m' h'])
        · rcases List.mem_cons.mp h' with h' | h'
          · exact absurd h' hne
          · exact List.mem_append_right _ h'

lemma wait_dispatch_mid_exclusion (st arr : List Msg) (etype : String)
    (pred : Option (JVal → Bool)) (r : Msg) (st1 arr1 : List Msg)
    (h : wait_dispatch st arr etype pred = (some r, st1, arr1))
    (hnd : ((st ++ arr).map Msg.mid).Nodup) :
    r.mid ∉ (st1 ++ arr1).map Msg.mid := by
  rw [wait_dispatch] at h
  cases hfib : findInBacklog etype pred st with
  | some pr =>
    obtain ⟨c, bl'⟩ := pr
    rw [hfib] at h
    obtain ⟨hc, hst1, harr1⟩ : c = r ∧ bl' = st1 ∧ arr = arr1 := by simpa using h
    obtain ⟨pre, post, heq, heq', hpre, hm⟩ := findInBacklog_eq_some etype pred st c bl' hfib
    rw [hc] at heq
    rw [hst1] at heq'
    rw [heq] at hnd
    have hnd3 : (pre.map Msg.mid ++
        r.mid :: (post.map Msg.mid ++ arr.map Msg.mid)).Nodup := by
      simpa [List.map_append, List.append_assoc] using hnd
    obtain ⟨hA, hB⟩ := nodup_split_not_mem hnd3
    simp only [List.mem_append] at hB
    intro hmem
    rw [heq', ← harr1] at hmem
    simp only [List.map_append, List.mem_append] at hmem
    rcases hmem with (hmem | hmem) | hmem
    · exact hA hmem
    · exact hB (Or.inl hmem)
    · exact hB (Or.inr hmem)
  | none =>
    rw [hfib] at h
    obtain ⟨hr, pre, post, heq, h1, h2, hpre⟩ := recvLoop_eq_some etype pred arr st r st1 arr1 h
    rw [heq] at hnd
    have hnd3 : ((st.map Msg.mid ++ pre.map Msg.mid) ++
        r.mid :: post.map Msg.mid).Nodup := by
      simpa [List.map_append, List.append_assoc] using hnd
    obtain ⟨hA, hB⟩ := nodup_split_not_mem hnd3
    simp only [List.mem_append] at hA
    intro hmem
    rw [h2, h1] at hmem
    simp only [List.map_append, List.mem_append] at hmem
    rcases hmem with (hmem | hmem) | hmem
    · exact hA (Or.inl hmem)
    · refine hA (Or.inr ?_)
      have hsub : List.filter eligible pre ⊆ pre := List.filter_subset' pre
      exact (List.map_subset Msg.mid hsub) hmem
    · exact hB hmem

lemma wait_dispatch_success (st arr : List Msg) (etype : String)
    (pred : Option (JVal → Bool)) (m : Msg)
    (hm : m ∈ st ++ arr) (hmatch : matchesEvent etype pred m = true) :
    ∃ r st1 arr1, wait_dispatch st arr etype pred = (some r, st1, arr1) := by
  rcases hres : wait_dispatch st arr etype pred with ⟨res, st1, arr1⟩
  cases res with
  | some r => exact ⟨r, st1, arr1, rfl⟩
  | none =>
    exfalso
    rw [wait_dispatch] at hres
    cases hfib : findInBacklog etype pred st with
    | some pr => obtain ⟨c, bl'⟩ := pr; rw [hfib] at hres; simp at hres
    | none =>
      rw [hfib] at hres
      obtain ⟨_, _, hall⟩ := recvLoop_eq_none etype pred arr st st1 arr1 hres
      rcases List.mem_append.mp hm with hm | hm
      · exact absurd hmatch (by simp [findInBacklog_eq_none etype pred st hfib m hm])
      · exact absurd hmatch (by simp [hall m hm])

lemma waitUntilAux_swallow (desc : String) (fn : Nat → Option Bool)
    (deadline poll : Nat) : ∀ fuel t,
    waitUntilAux desc fn deadline poll fuel t =
      waitUntilAux desc (fun u => some ((fn u).getD false)) deadline poll fuel t := by
  intro fuel
  induction fuel with
  | zero => intro t; rfl
  | succ n ih =>
    intro t
    rw [waitUntilAux, waitUntilAux]
    by_cases hlt : t < deadline
    · rw [if_pos hlt, if_pos hlt]
      have hsame : (fn t = some true) = ((fun u => some ((fn u).getD false)) t = some true) := by
        cases hf : fn t with
        | none => simp [hf]
        | some b => cases b <;> simp [hf]
      by_cases hf : fn t = some true
      · rw [if_pos hf, if_pos (hsame ▸ hf)]
      · rw [if_neg hf, if_neg (hsame ▸ hf)]
        exact ih (t + poll)
    · rw [if_neg hlt, if_neg hlt]

lemma waitUntilAux_none_timeout (desc : String) (deadline poll : Nat) :
    ∀ fuel t, waitUntilAux desc (fun _ => (none : Option Bool)) deadline poll fuel t =
      WaitOutcome.timeoutErr desc := by
  intro fuel
  induction fuel with
  | zero => intro t; rfl
  | succ n ih =>
    intro t
    rw [waitUntilAux]
    by_cases hlt : t < deadline
    · rw [if_pos hlt, if_neg (by simp)]
      exact ih (t + poll)
    · rw [if_neg hlt]

lemma waitUntilAux_ok_exists (desc : String) (fn : Nat → Option Bool)
    (deadline poll : Nat) : ∀ fuel t,
    waitUntilAux desc fn deadline poll fuel t = WaitOutcome.ok →
      ∃ k, t + k * poll < deadline ∧ fn (t + k * poll) = some true := by
  intro fuel
  induction fuel with
  | zero => intro t h; exact absurd h (by rw [waitUntilAux]; intro hc; cases hc)
  | succ n ih =>
    intro t h
    rw [waitUntilAux] at h
    by_cases hlt : t < deadline
    · rw [if_pos hlt] at h
      by_cases hf : fn t = some true
      · exact ⟨0, by simpa using hlt, by simpa using hf⟩
      · rw [if_neg hf] at h
        obtain ⟨k, hk1, hk2⟩ := ih (t + poll) h
        refine ⟨k + 1, ?_, ?_⟩
        · have : t + (k + 1) * poll = t + poll + k * poll := by ring
          omega
        · have : t + (k + 1) * poll = t + poll + k * poll := by ring
          rw [this]
          exact hk2
    · rw [if_neg hlt] at h
      cases h

lemma waitUntilAux_ok_of (desc : String) (fn : Nat → Option Bool)
    (deadline poll : Nat) : ∀ fuel k t, k < fuel → t + k * poll < deadline →
      fn (t + k * poll) = some true →
      waitUntilAux desc fn deadline poll fuel t = WaitOutcome.ok := by
  intro fuel
  induction fuel with
  | zero => intro k t hk; exact absurd hk (Nat.not_lt_zero k)
  | succ n ih =>
    intro k t hk hlt htrue
    rw [waitUntilAux]
    have ht : t < deadline := lt_of_le_of_lt (Nat.le_add_right t _) hlt
    rw [if_pos ht]
    by_cases hf : fn t = some true
    · rw [if_pos hf]
    · rw [if_neg hf]
      cases k with
      | zero => exact absurd htrue (by simpa using hf)
      | succ k' =>
        have heq : t + (k' + 1) * poll = t + poll + k' * poll := by ring
        exact ih k' (t + poll) (by omega) (by omega) (by rw [← heq]; exact htrue)

lemma waitUntilAux_shape (desc : String) (fn : Nat → Option Bool)
    (deadline poll : Nat) : ∀ fuel t,
    waitUntilAux desc fn deadline poll fuel t = WaitOutcome.ok ∨
      waitUntilAux desc fn deadline poll fuel t = WaitOutcome.timeoutErr desc := by
  intro fuel
  induction fuel with
  | zero => intro t; right; rfl
  | succ n ih =>
    intro t
    rw [waitUntilAux]
    by_cases hlt : t < deadline
    · rw [if_pos hlt]
      by_cases hf : fn t = some true
      · rw [if_pos hf]; left; rfl
      · rw [if_neg hf]; exact ih (t + poll)
    · rw [if_neg hlt]; right; rfl

lemma heartbeatTrace_chain (interval : Nat) : ∀ (ts : List Nat) (lastBeat prev : Nat),
    lastBeat ≤ prev → 10 * (prev - lastBeat) ≤ 9 * interval →
    List.Chain (fun a b => a ≤ b ∧ 10 * (b - a) ≤ interval) prev ts →
    List.Chain (fun a b => a ≤ b ∧ b - a ≤ interval) lastBeat
      (heartbeatTrace interval lastBeat ts) := by
  intro ts
  induction ts with
  | nil => intro lastBeat prev _ _ _; exact List.Chain.nil
  | cons t ts ih =>
    intro lastBeat prev hLp hinv hchain
    cases hchain with
    | cons hrel hchain' =>
      rw [heartbeatTrace]
      by_cases hc : 9 * interval ≤ 10 * (t - lastBeat)
      · rw [if_pos hc]
        refine List.Chain.cons ⟨le_trans hLp hrel.1, ?_⟩
          (ih t t le_rfl (by simp) hchain')
        have h1 := hrel.1
        have h2 := hrel.2
        omega
      · rw [if_neg hc]
        exact ih lastBeat t (le_trans hLp hrel.1) (by omega) hchain'

/-! ## Claim theorems -/

/-- C1 counterexample: the relay verifier of
`federation_live_fundamentals_validation.py` (one of the two code sites the
claim cites) passes with counts `a_to_c = 1`, `b_to_c = 1`,
`c_has_event = 1`, i.e. even though a direct A-to-C delivery-attempt record
exists alongside the relay evidence — contradicting the claim that any
direct record forces failure. -/
theorem relayCheckLive_passes_with_direct_edge :
    relayCheckLive 1 1 1 = true ∧ (1 : Nat) ≠ 0 := by decide

/-- C1 amended: the relay verifier of the e2e script passes exactly when the
claimed conjunction holds (no direct A-to-C record, a B-to-C record, and
ingestion at C), and a direct record alone makes it fail; the
verifier of the live-fundamentals script instead only requires ingestion at C
plus at least one delivery attempt to C from either A or B, so a direct
A-to-C record does not disqualify there. -/
theorem relay_check_characterisation :
    (∀ a b c : Nat, relayCheckE2E a b c = true ↔ a = 0 ∧ 0 < b ∧ 0 < c) ∧
    (∀ a b c : Nat, relayCheckLive a b c = true ↔ 0 < c ∧ (0 < a ∨ 0 < b)) := by
  constructor
  · intro a b c
    rw [relayCheckE2E]
    split_ifs with h1 h2 <;> simp <;> omega
  · intro a b c
    rw [relayCheckLive]
    split_ifs with h1 h2 <;> simp <;> omega

/-- C3: `security_gate_check.main` returns 0 for every tracker state,
because its first statement is `return 0`; the subsequent gating logic
(embedded as `gateBody`) is unreachable, although it would return 1 for a
missing tracker or for a tracker containing an OPEN P0 row. -/
theorem security_gate_always_passes :
    (∀ tracker, securityGateMain tracker = 0) ∧
    gateBody none = 1 ∧
    gateBody (some [openRow]) = 1 ∧
    gateBody (some [doneRow]) = 0 ∧
    gateBody (some []) = 0 :=
  ⟨fun _ => rfl, rfl, by decide, by decide, rfl⟩

/-- C8 counterexample: the final trusted-peer verification of
`federation_live_fundamentals_validation.py` (one of the two code sites the
claim cites) accepts a trusted set that strictly contains the configured
set: with node A trusting both B and C it still passes, although the
observed set does not equal `[node-b.test]`. -/
theorem live_trust_check_accepts_superset :
    liveFinalTrustCheck superTrustRows = true ∧
    trustedNames superTrustRows ≠ [nodeBName] := by
  constructor
  · rfl
  · decide

/-- C8 amended: the final verification of the e2e script passes exactly when
the trusted-peer set of node A equals the configured set `[node-b.test]`; the
final verification of the live-fundamentals script only checks that
`node-b.test` is a member of the trusted set, so strict supersets pass
there. -/
theorem trust_final_check_shapes :
    (∀ rows, e2eFinalTrustCheck rows = true ↔ trustedNames rows = [nodeBName]) ∧
    (∀ rows, liveFinalTrustCheck rows = true ↔ nodeBName ∈ trustedNames rows) := by
  constructor
  · intro rows
    rw [e2eFinalTrustCheck, beq_iff_eq]
    constructor
    · intro h
      exact List.perm_singleton.mp ((sortByName_perm _).symm.trans (by rw [h]))
    · intro h
      rw [h]
      rfl
  · intro rows
    rw [liveFinalTrustCheck]
    simp [List.contains]

/-- C9: `GatewayClient.close` returns normally in every session state: it
clears the handle, leaves the backlog alone, is idempotent, and its result
on a connected session does not depend on whether closing the underlying
stream raises (the exception is swallowed). -/
theorem close_never_raises (s : ClientState) :
    (closeClient s).ws = none ∧
    (closeClient s).backlog = s.backlog ∧
    closeClient (closeClient s) = closeClient s ∧
    ∀ h : StreamHandle, closeClient { s with ws := some h } = { s with ws := none } := by
  have key : ∀ (bl : List Msg) (h : StreamHandle),
      closeClient { ws := some h, backlog := bl } = { ws := none, backlog := bl } := by
    intro bl h
    cases hc : streamClose h <;> simp [closeClient, hc]
  obtain ⟨ws, bl⟩ := s
  cases ws with
  | none => exact ⟨rfl, rfl, rfl, fun h => key bl h⟩
  | some h =>
    refine ⟨?_, ?_, ?_, fun h2 => key bl h2⟩
    · rw [key bl h]
    · rw [key bl h]
    · rw [key bl h]
      rfl

/-- C4: any exception raised by the predicate during a `wait_until` poll is
swallowed and treated as "not yet true": the outcome with an
exception-raising predicate (modelled by `none`) equals the outcome with
the predicate forced to `false` at those polls, and a predicate that always
raises yields exactly `Timeout` carrying the description — never any other
error. -/
theorem wait_until_swallows_predicate_exceptions :
    (∀ (desc : String) (fn : Nat → Option Bool) (deadline poll : Nat),
       wait_until desc fn deadline poll =
         wait_until desc (fun t => some ((fn t).getD false)) deadline poll) ∧
    (∀ (desc : String) (deadline poll : Nat),
       wait_until desc (fun _ => (none : Option Bool)) deadline poll =
         WaitOutcome.timeoutErr desc) :=
  ⟨fun desc fn deadline poll => waitUntilAux_swallow desc fn deadline poll _ 0,
   fun desc deadline poll => waitUntilAux_none_timeout desc deadline poll _ 0⟩

/-- C5 counterexample: with the 0.5 s poll interval of the e2e script (5 tenths)
a predicate that becomes true at `T = 12` tenths is polled at times 0, 5,
10 and then the deadline `13` has passed, so `wait_until` with timeout
`13 > T = 12` still raises `Timeout`, contradicting the claim that any
timeout strictly greater than `T` returns successfully. -/
theorem wait_until_timeout_despite_margin :
    12 < 13 ∧
    wait_until "edited message on B" (thresholdAt 12) 13 5 =
      WaitOutcome.timeoutErr "edited message on B" := ⟨by omega, by decide⟩

/-- C5 amended: for a predicate false before `T` and true at and after `T`,
`wait_until` returns successfully whenever the timeout is at least
`T` plus one poll interval (some poll then lands in `[T, timeout)`), and
raises `Timeout` whenever the timeout is at most `T`; in the remaining
window `T < timeout < T + poll` the outcome depends on poll alignment, as
the counterexample shows. -/
theorem wait_until_threshold_behaviour (desc : String) (T deadline poll : Nat)
    (hpoll : 1 ≤ poll) :
    (T + poll ≤ deadline →
      wait_until desc (thresholdAt T) deadline poll = WaitOutcome.ok) ∧
    (deadline ≤ T →
      wait_until desc (thresholdAt T) deadline poll = WaitOutcome.timeoutErr desc) := by
  constructor
  · intro hle
    have hp0 : 0 < poll := hpoll
    have hdm := Nat.div_add_mod (T + poll - 1) poll
    have hmod := Nat.mod_lt (T + poll - 1) hp0
    set k := (T + poll - 1) / poll with hk
    have h1 : T ≤ k * poll := by rw [Nat.mul_comm]; omega
    have h2 : k * poll < T + poll := by rw [Nat.mul_comm]; omega
    have hkk : k ≤ k * poll := Nat.le_mul_of_pos_right k hp0
    apply waitUntilAux_ok_of desc (thresholdAt T) deadline poll (deadline + 1) k 0
    · omega
    · omega
    · simp only [thresholdAt, Option.some.injEq, decide_eq_true_eq]
      omega
  · intro hge
    rcases waitUntilAux_shape desc (thresholdAt T) deadline poll (deadline + 1) 0 with h | h
    · exfalso
      obtain ⟨j, hj1, hj2⟩ := waitUntilAux_ok_exists desc (thresholdAt T) deadline poll _ 0 h
      simp only [thresholdAt, Option.some.injEq, decide_eq_true_eq] at hj2
      omega
    · exact h

/-- C5 witness: with `T = 10`, poll interval 5 and timeout 16 ≥ T + poll
the poller returns, and with timeout 8 ≤ T it raises `Timeout`. -/
theorem wait_until_threshold_witness :
    wait_until "w" (thresholdAt 10) 16 5 = WaitOutcome.ok ∧
    wait_until "w" (thresholdAt 10) 8 5 = WaitOutcome.timeoutErr "w" :=
  ⟨(wait_until_threshold_behaviour "w" 10 16 5 (by decide)).1 (by decide),
   (wait_until_threshold_behaviour "w" 10 8 5 (by decide)).2 (by decide)⟩

/-- C6 counterexample: with interval 10 (tenths of a second), last
keepalive at time 0 and read iterations at times 8 and 17 — consecutive
gaps 8 and 9, both below the interval, i.e. "calls more frequent than the
interval" — no keepalive is due at time 8 (elapsed 8 < 9 = 90%), so the
next emission happens only at time 17, a gap of 17 > 10 between consecutive
keepalive emissions. -/
theorem heartbeat_gap_can_exceed_interval :
    (8 - 0 < 10 ∧ 17 - 8 < 10) ∧
    heartbeatTrace 10 0 [8, 17] = [17] ∧
    17 - 0 > 10 := by decide

/-- C6 amended: each read iteration sends a keepalive exactly when the time
since the last emission is at least 90% of the negotiated interval; and
whenever consecutive read iterations (measured from the last emission) are
at most one tenth of the interval apart — rather than merely more frequent
than the interval — consecutive keepalive emissions are never more than the
interval apart. -/
theorem heartbeat_emission_spacing (interval lastBeat : Nat) (ts : List Nat)
    (hgaps : List.Chain (fun a b => a ≤ b ∧ 10 * (b - a) ≤ interval) lastBeat ts) :
    (∀ last now, (maybe_heartbeat interval last now).2 = true ↔
       9 * interval ≤ 10 * (now - last)) ∧
    List.Chain (fun a b => a ≤ b ∧ b - a ≤ interval) lastBeat
      (heartbeatTrace interval lastBeat ts) := by
  constructor
  · intro last now
    rw [maybe_heartbeat]
    split_ifs with h <;> simp [h]
  · exact heartbeatTrace_chain interval ts lastBeat lastBeat le_rfl (by simp) hgaps

/-- C6 witness: interval 10, last emission at 0, read iterations at 1 and 2
(gaps of one tenth of the interval): the spacing theorem applies and the
emission trace keeps consecutive gaps within the interval. -/
theorem heartbeat_emission_spacing_witness :
    (∀ last now, (maybe_heartbeat 10 last now).2 = true ↔
       9 * 10 ≤ 10 * (now - last)) ∧
    List.Chain (fun a b => a ≤ b ∧ b - a ≤ 10) 0 (heartbeatTrace 10 0 [1, 2]) :=
  heartbeat_emission_spacing 10 0 [1, 2]
    (List.Chain.cons (by decide) (List.Chain.cons (by decide) List.Chain.nil))

/-- C2: `wait_dispatch` first scans the retained backlog oldest-first (a
backlog hit is removed and returned with the arrivals untouched), and
consumption is at-most-once: when two distinct matching events exist among
the backlog and the arrivals, two successive calls with the same type and
predicate both succeed and return events with distinct identities — no
event object is ever returned twice. -/
theorem wait_dispatch_at_most_once
    (st arr : List Msg) (etype : String) (pred : Option (JVal → Bool))
    (hnodup : ((st ++ arr).map Msg.mid).Nodup)
    (m1 m2 : Msg)
    (hm1 : m1 ∈ st ++ arr) (hm2 : m2 ∈ st ++ arr)
    (hne : m1.mid ≠ m2.mid)
    (hmatch1 : matchesEvent etype pred m1 = true)
    (hmatch2 : matchesEvent etype pred m2 = true) :
    (∀ c bl', findInBacklog etype pred st = some (c, bl') →
      wait_dispatch st arr etype pred = (some c, bl', arr)) ∧
    ∃ r1 st1 arr1 r2 st2 arr2,
      wait_dispatch st arr etype pred = (some r1, st1, arr1) ∧
      wait_dispatch st1 arr1 etype pred = (some r2, st2, arr2) ∧
      matchesEvent etype pred r1 = true ∧
      matchesEvent etype pred r2 = true ∧
      r1.mid ≠ r2.mid := by
  constructor
  · intro c bl' hfib
    rw [wait_dispatch, hfib]
  · obtain ⟨r1, st1, arr1, h1⟩ := wait_dispatch_success st arr etype pred m1 hm1 hmatch1
    obtain ⟨hr1match, hr1mem, hretain⟩ :=
      wait_dispatch_some_spec st arr etype pred r1 st1 arr1 h1
    have hexcl := wait_dispatch_mid_exclusion st arr etype pred r1 st1 arr1 h1 hnodup
    by_cases hcase : r1.mid = m2.mid
    · have hne1 : m1 ≠ r1 := fun he => hne (by rw [he, hcase])
      have hm1' : m1 ∈ st1 ++ arr1 := hretain m1 hm1 hmatch1 hne1
      obtain ⟨r2, st2, arr2, h2⟩ :=
        wait_dispatch_success st1 arr1 etype pred m1 hm1' hmatch1
      obtain ⟨hr2match, hr2mem, _⟩ :=
        wait_dispatch_some_spec st1 arr1 etype pred r2 st2 arr2 h2
      have hmem2 : r2.mid ∈ (st1 ++ arr1).map Msg.mid := List.mem_map_of_mem Msg.mid hr2mem
      exact ⟨r1, st1, arr1, r2, st2, arr2, h1, h2, hr1match, hr2match,
        fun he => hexcl (he ▸ hmem2)⟩
    · have hne2 : m2 ≠ r1 := fun he => hcase (by rw [he])
      have hm2' : m2 ∈ st1 ++ arr1 := hretain m2 hm2 hmatch2 hne2
      obtain ⟨r2, st2, arr2, h2⟩ :=
        wait_dispatch_success st1 arr1 etype pred m2 hm2' hmatch2
      obtain ⟨hr2match, hr2mem, _⟩ :=
        wait_dispatch_some_spec st1 arr1 etype pred r2 st2 arr2 h2
      have hmem2 : r2.mid ∈ (st1 ++ arr1).map Msg.mid := List.mem_map_of_mem Msg.mid hr2mem
      exact ⟨r1, st1, arr1, r2, st2, arr2, h1, h2, hr1match, hr2match,
        fun he => hexcl (he ▸ hmem2)⟩

/-- C2 witness: an empty backlog and two distinct MESSAGE_CREATE arrivals —
both successive `wait_dispatch` calls succeed with distinct events. -/
theorem wait_dispatch_at_most_once_witness :
    (∀ c bl', findInBacklog "MESSAGE_CREATE" none [] = some (c, bl') →
      wait_dispatch [] [msgA, msgB] "MESSAGE_CREATE" none = (some c, bl', [msgA, msgB])) ∧
    ∃ r1 st1 arr1 r2 st2 arr2,
      wait_dispatch [] [msgA, msgB] "MESSAGE_CREATE" none = (some r1, st1, arr1) ∧
      wait_dispatch st1 arr1 "MESSAGE_CREATE" none = (some r2, st2, arr2) ∧
      matchesEvent "MESSAGE_CREATE" none r1 = true ∧
      matchesEvent "MESSAGE_CREATE" none r2 = true ∧
      r1.mid ≠ r2.mid :=
  wait_dispatch_at_most_once [] [msgA, msgB] "MESSAGE_CREATE" none (by decide)
    msgA msgB (by simp) (by simp) (by decide) rfl rfl

/-- C10: a dispatch frame whose type tag matches but whose payload is not a
dict is never matched (for any predicate, including none) and never
returned by `wait_dispatch`; once in the backlog it stays there across
every call, and when a call times out every eligible arrival — including
such non-dict frames — has been appended to the backlog. -/
theorem wait_dispatch_nondict_retained
    (st arr : List Msg) (etype : String) (pred : Option (JVal → Bool))
    (res : Option Msg) (st1 arr1 : List Msg)
    (hw : wait_dispatch st arr etype pred = (res, st1, arr1)) :
    (∀ m : Msg, m.d.isDict = false → matchesEvent etype pred m = false) ∧
    (∀ r, res = some r → r.d.isDict = true) ∧
    (∀ m ∈ st, m.d.isDict = false → m ∈ st1) ∧
    (res = none → ∀ m ∈ arr, eligible m = true → m ∈ st1) := by
  refine ⟨?_, ?_, ?_, ?_⟩
  · intro m hm
    simp [matchesEvent, hm]
  · intro r hres
    rw [hres] at hw
    exact matchesEvent_isDict etype pred r
      (wait_dispatch_some_spec st arr etype pred r st1 arr1 hw).1
  · intro m hmst hnd
    rw [wait_dispatch] at hw
    cases hfib : findInBacklog etype pred st with
    | some pr =>
      obtain ⟨c, bl'⟩ := pr
      rw [hfib] at hw
      obtain ⟨hc, hst1, _⟩ : some c = res ∧ bl' = st1 ∧ arr = arr1 := by simpa using hw
      obtain ⟨pre, post, heq, heq', hpre, hm⟩ := findInBacklog_eq_some etype pred st c bl' hfib
      have hcdict : c.d.isDict = true := matchesEvent_isDict etype pred c hm
      have hmc : m ≠ c := fun he => by rw [he, hcdict] at hnd; cases hnd
      rw [← hst1, heq']
      rw [heq] at hmst
      rcases List.mem_append.mp hmst with h' | h'
      · exact List.mem_append_left post h'
      · rcases List.mem_cons.mp h' with h' | h'
        · exact absurd h' hmc
        · exact List.mem_append_right pre h'
    | none =>
      rw [hfib] at hw
      rcases res with _ | r
      · obtain ⟨_, h2, _⟩ := recvLoop_eq_none etype pred arr st st1 arr1 hw
        rw [h2]
        exact List.mem_append_left _ hmst
      · obtain ⟨_, pre, post, _, _, h2, _⟩ :=
          recvLoop_eq_some etype pred arr st r st1 arr1 hw
        rw [h2]
        exact List.mem_append_left _ hmst
  · intro hnone m hmarr helig
    rw [hnone] at hw
    rw [wait_dispatch] at hw
    cases hfib : findInBacklog etype pred st with
    | some pr =>
      obtain ⟨c, bl'⟩ := pr
      rw [hfib] at hw
      simp at hw
    | none =>
      rw [hfib] at hw
      obtain ⟨_, h2, _⟩ := recvLoop_eq_none etype pred arr st st1 arr1 hw
      rw [h2]
      exact List.mem_append_right st (List.mem_filter.mpr ⟨hmarr, helig⟩)

/-- C10 witness: a MESSAGE_CREATE frame with an array payload sitting in
the backlog is not matched and survives a timing-out call untouched. -/
theorem wait_dispatch_nondict_retained_witness :
    matchesEvent "MESSAGE_CREATE" none ndMsg = false ∧
    ndMsg ∈ ([ndMsg] : List Msg) :=
  ⟨(wait_dispatch_nondict_retained [ndMsg] [] "MESSAGE_CREATE" none none [ndMsg] [] rfl).1
      ndMsg rfl,
   (wait_dispatch_nondict_retained [ndMsg] [] "MESSAGE_CREATE" none none [ndMsg] [] rfl).2.2.1
      ndMsg (by simp) rfl⟩

/-- C7: `connect` fails when the greeting is missing (no frame arrives
within the bounded read) or has the wrong opcode; when the HELLO greeting
lacks a `heartbeat_interval` field it falls back to the default 41250 ms;
and on greetings whose interval field is absent or numeric (the
`helloIntervalWF` domain — a present non-numeric field makes the source
raise in `float(...)` instead) it succeeds exactly when a READY dispatch
follows, and fails with the bounded-timeout error when no READY arrives. -/
theorem connect_handshake_behaviour :
    (connectModel [] = ConnectResult.err "timed out waiting for websocket payload") ∧
    (∀ hello rest, hello.op ≠ 10 →
      connectModel (hello :: rest) = ConnectResult.err "expected HELLO") ∧
    (∀ hello rest i bl rem, hello.op = 10 →
      (∀ fields, hello.d = JVal.jobj fields → getField fields "heartbeat_interval" = none) →
      connectModel (hello :: rest) = ConnectResult.ok i bl rem → i = 41250) ∧
    (∀ hello rest, hello.op = 10 → helloIntervalWF hello →
      (∃ m ∈ rest, matchesEvent "READY" none m = true) →
      ∃ i bl rem, connectModel (hello :: rest) = ConnectResult.ok i bl rem) ∧
    (∀ hello rest, hello.op = 10 → helloIntervalWF hello →
      (∀ m ∈ rest, matchesEvent "READY" none m = false) →
      connectModel (hello :: rest) = ConnectResult.err "timed out waiting for READY") := by
  refine ⟨rfl, ?_, ?_, ?_, ?_⟩
  · intro hello rest hop
    rw [connectModel, if_neg hop]
  · intro hello rest i bl rem hop habs hconn
    rw [connectModel, if_pos hop] at hconn
    have hms : helloIntervalMs hello = 41250 := by
      cases hd : hello.d with
      | jobj fields => simp only [helloIntervalMs, hd, habs fields hd]
      | jnull => simp only [helloIntervalMs, hd]
      | jbool b => simp only [helloIntervalMs, hd]
      | jnum n => simp only [helloIntervalMs, hd]
      | jstr s => simp only [helloIntervalMs, hd]
      | jarr xs => simp only [helloIntervalMs, hd]
    rcases hwd : wait_dispatch [] rest "READY" none with ⟨resw, blw, remw⟩
    rw [hwd] at hconn
    cases resw with
    | some r =>
      have : max 1000 (helloIntervalMs hello) = i := by
        have := hconn
        simp only [ConnectResult.ok.injEq] at this
        exact this.1
      rw [← this, hms]
      rfl
    | none => cases hconn
  · intro hello rest hop _ hready
    obtain ⟨m, hmem, hmatch⟩ := hready
    obtain ⟨r, st1, arr1, hwd⟩ :=
      wait_dispatch_success [] rest "READY" none m (List.mem_append_right [] hmem) hmatch
    exact ⟨max 1000 (helloIntervalMs hello), st1, arr1, by rw [connectModel, if_pos hop, hwd]⟩
  · intro hello rest hop _ hnone
    obtain ⟨bl1, hro⟩ := recvLoop_none_of_all_unmatched "READY" none rest [] hnone
    have hwd : wait_dispatch [] rest "READY" none = (none, bl1, []) := hro
    rw [connectModel, if_pos hop, hwd]

/-- C7 witness: a HELLO without the interval field followed by a READY
connects successfully (and the fallback interval 41250 ms is negotiated);
a non-HELLO first frame and a missing READY each fail with the
corresponding handshake error. -/
theorem connect_handshake_behaviour_witness :
    (∃ i bl rem, connectModel [helloMsg, readyMsg] = ConnectResult.ok i bl rem) ∧
    connectModel [badHello] = ConnectResult.err "expected HELLO" ∧
    connectModel [helloMsg] = ConnectResult.err "timed out waiting for READY" ∧
    (41250 : Int) = 41250 :=
  ⟨connect_handshake_behaviour.2.2.2.1 helloMsg [readyMsg] (by decide)
      (fun fields hf => by cases hf; exact Or.inl rfl)
      ⟨readyMsg, List.mem_cons_self readyMsg [], rfl⟩,
   connect_handshake_behaviour.2.1 badHello [] (by decide),
   connect_handshake_behaviour.2.2.2.2 helloMsg [] (by decide)
      (fun fields hf => by cases hf; exact Or.inl rfl) (by simp),
   connect_handshake_behaviour.2.2.1 helloMsg [readyMsg] 41250 [] [] (by decide)
      (fun fields hf => by cases hf; rfl) rfl⟩

end Paracord
